import Mathlib

/-!
Verification of the pbta game-system plugin sources.

This file shallowly embeds the parts of the repository that the checked
properties concern:

* `MappingField` (src/unnamed/part_000): a schema field holding a mapping
  from string keys to values of one contained record shape.  JavaScript
  objects are modelled as association lists `List (String × V)` whose keys
  are unique and kept in insertion order; property assignment `obj[k] = v`
  is `assocSet`, property lookup `obj[k]` is `assocGet`.  The contained
  host `DataField` instance is abstracted as a `DataModel` record of the
  behaviors `MappingField` delegates to (clean, validate, getInitialValue,
  the live-object expansion).
* `ItemPbta` lifecycle hooks maintaining the process-wide playbook
  registry `CONFIG.PBTA.playbooks` (src/src/module/documents/item.js,
  `_onCreate` / `_onUpdate` / `_onDelete`).  A JavaScript array is modelled
  as its list of index elements plus the own-property slot "-1" that the
  assignment `playbooks[-1] = entry` creates when `findIndex` misses.
* `ItemPbta.getRollFormula` and the chat-card shift action
  `_onChatCardAction` (same file).
-/

set_option autoImplicit false

universe u

/-- Abstraction of the host `DataField` instance contained in a
`MappingField` (`this.model` in the source): the four behaviors the field
delegates to.  `validate` returns the validation error, or `none` when the
value passes; `defaultValue` is `model.getInitialValue()`; `liveInit` is
`model.initialize(data, model, options)`. -/
structure DataModel (V : Type u) where
  clean : V → V
  validate : V → Option String
  defaultValue : V
  liveInit : V → V

/-- Options accepted by the `MappingField` constructor (its `_defaults`):
`initialKeys` is `null` or a list of keys (an options object configured with
a plain object stands for its key list), `initialValue` is the optional
per-key initial-value builder `(key, initial, existing) => value` whose
`null`/`undefined` result is modelled as `none`, `initialKeysOnly` restricts
`initialize` output to the seed keys, and `initialOpt` is the `initial`
option inherited from `ObjectField` (host default: the empty object). -/
structure MappingFieldOptions (V : Type u) where
  initialKeys : Option (List String) := none
  initialValue : Option (String → V → Option (List (String × V)) → Option V) := none
  initialKeysOnly : Bool := false
  initialOpt : List (String × V) := []

/-- The `MappingField` itself: the contained record shape plus its options. -/
structure MappingField (V : Type u) where
  model : DataModel V
  initialKeys : Option (List String)
  initialValue : Option (String → V → Option (List (String × V)) → Option V)
  initialKeysOnly : Bool
  initialOpt : List (String × V)

/-- The constructor argument `model`: either a genuine `DataField` or some
other JavaScript value (carrying a descriptive tag). -/
inductive CtorArg (V : Type u) where
  | dataField : DataModel V → CtorArg V
  | nonDataField : String → CtorArg V

/-- Embedding of the `MappingField` constructor: a non-`DataField` `model`
argument throws before any field state is established. -/
def MappingField.construct {V : Type u} (arg : CtorArg V) (options : MappingFieldOptions V) :
    Except String (MappingField V) :=
  match arg with
  | .nonDataField _ =>
    .error "MappingField must have a DataField as its contained element"
  | .dataField m =>
    .ok { model := m
          initialKeys := options.initialKeys
          initialValue := options.initialValue
          initialKeysOnly := options.initialKeysOnly
          initialOpt := options.initialOpt }

/-- JavaScript property lookup `obj[k]` on an object modelled as an
association list: `none` when the key is absent. -/
def assocGet {V : Type u} : List (String × V) → String → Option V
  | [], _ => none
  | p :: rest, k => if p.1 = k then some p.2 else assocGet rest k

/-- JavaScript property assignment `obj[k] = v`: overwrites the value in
place when the key exists, otherwise appends the new key (insertion-order
semantics of plain objects). -/
def assocSet {V : Type u} : List (String × V) → String → V → List (String × V)
  | [], k, v => [(k, v)]
  | p :: rest, k, v => if p.1 = k then (k, v) :: rest else p :: assocSet rest k v

/-- Embedding of `MappingField._cleanType`: every value of the object is
replaced by the contained record shape's `clean` of it. -/
def MappingField.cleanType {V : Type u} (f : MappingField V) (value : List (String × V)) :
    List (String × V) :=
  value.map (fun p => (p.1, f.model.clean p.2))

/-- Embedding of `MappingField._getInitialValueForKey`: the record shape's
own default, overridden by the configured per-key builder when that builder
is present and returns a non-null value. -/
def MappingField.getInitialValueForKey {V : Type u} (f : MappingField V) (key : String)
    (object : Option (List (String × V))) : V :=
  let initial := f.model.defaultValue
  match f.initialValue with
  | none => initial
  | some g => (g key initial object).getD initial

/-- Embedding of `MappingField.getInitialValue`.  `super.getInitialValue`
is the configured `ObjectField` `initial` option (`initialOpt`; host default
the empty object, and a constant, so the `data` argument is immaterial).
When seed keys are configured and that base initial is empty, one record per
seed key is populated via `_getInitialValueForKey`. -/
def MappingField.getInitialValue {V : Type u} (f : MappingField V) : List (String × V) :=
  match f.initialKeys with
  | none => f.initialOpt
  | some keys =>
    match f.initialOpt with
    | [] => keys.foldl (fun acc k => assocSet acc k (f.getInitialValueForKey k none)) []
    | initial => initial

/-- Embedding of `MappingField._validateValues`: the per-key error map,
holding the record shape's error for exactly the failing entries. -/
def MappingField.validateValues {V : Type u} (f : MappingField V)
    (value : List (String × V)) : List (String × String) :=
  value.filterMap (fun p => (f.model.validate p.2).map (fun e => (p.1, e)))

/-- The errors `MappingField._validateType` can throw: the raw value is not
a plain object, or a `ModelValidationError` carrying the per-key error map. -/
inductive MappingValidationError where
  | notObject : MappingValidationError
  | modelValidation : List (String × String) → MappingValidationError
deriving DecidableEq, Repr

/-- A raw value handed to `_validateType`: a plain object, or any other
JavaScript value (carrying its `getType` tag). -/
inductive RawValue (V : Type u) where
  | obj : List (String × V) → RawValue V
  | nonObject : String → RawValue V

/-- Embedding of `MappingField._validateType`: reject non-objects, then
validate every entry and throw the aggregate error map unless it is empty. -/
def MappingField.validateType {V : Type u} (f : MappingField V) (value : RawValue V) :
    Except MappingValidationError Unit :=
  match value with
  | .nonObject _ => .error .notObject
  | .obj entries =>
    match f.validateValues entries with
    | [] => .ok ()
    | e :: es => .error (.modelValidation (e :: es))

/-- Embedding of `MappingField.initialize` (the raw-to-live expansion; named
`expandRaw` here).  A falsy raw value — `null`/`undefined`, modelled as
`none` — is returned unchanged; note a present empty object is truthy and is
processed.  The iterated key list is the seed keys when `initialKeysOnly` is
set, else the keys of the raw value; gaps are filled via
`_getInitialValueForKey` and every entry is expanded by the record shape. -/
def MappingField.expandRaw {V : Type u} (f : MappingField V)
    (value : Option (List (String × V))) : Option (List (String × V)) :=
  match value with
  | none => none
  | some entries =>
    let initialKeysL := match f.initialKeys with
      | some ks => ks
      | none => []
    let keys := if f.initialKeysOnly then initialKeysL else entries.map Prod.fst
    some (keys.foldl (fun obj key =>
      let data := (assocGet entries key).getD (f.getInitialValueForKey key (some entries))
      assocSet obj key (f.model.liveInit data)) [])

/-- A playbook summary record as pushed onto `CONFIG.PBTA.playbooks`. -/
structure PlaybookEntry where
  name : String
  slug : String
  uuid : String
  actorType : String
deriving DecidableEq, Repr

/-- The process-wide playbook registry `CONFIG.PBTA.playbooks`, a JavaScript
array: `entries` are its index elements; `negIndexProp` is the own property
slot "-1" that the assignment `playbooks[-1] = entry` in `_onUpdate` creates
when `findIndex` returns -1.  That slot is invisible to `findIndex`,
`filter` and `push`, which operate on index elements only. -/
structure PlaybookRegistry where
  entries : List PlaybookEntry
  negIndexProp : Option PlaybookEntry
deriving DecidableEq, Repr

/-- The slice of an `ItemPbta` document the registry hooks read. -/
structure ItemDoc where
  type : String
  name : String
  slug : String
  uuid : String
  actorType : String
deriving DecidableEq, Repr

/-- The summary record the hooks build from a document. -/
def ItemDoc.summary (d : ItemDoc) : PlaybookEntry :=
  { name := d.name, slug := d.slug, uuid := d.uuid, actorType := d.actorType }

/-- JavaScript `Array.prototype.findIndex`: index of the first element
satisfying the predicate, else -1. -/
def findIndex {A : Type u} (p : A → Bool) : List A → Int
  | [] => -1
  | a :: rest =>
    if p a then 0
    else
      let i := findIndex p rest
      if i < 0 then -1 else i + 1

/-- JavaScript assignment `playbooks[index] = e` where `index` came from
`findIndex`: a non-negative index overwrites that element; index -1 sets the
own property "-1" of the array object, leaving the index elements alone. -/
def registryAssign (r : PlaybookRegistry) (i : Int) (e : PlaybookEntry) : PlaybookRegistry :=
  if i < 0 then { r with negIndexProp := some e }
  else { r with entries := r.entries.set i.toNat e }

/-- Embedding of `ItemPbta._onCreate`: playbook documents push their summary
onto the registry. -/
def onCreateHook (d : ItemDoc) (r : PlaybookRegistry) : PlaybookRegistry :=
  if d.type = "playbook" then { r with entries := r.entries ++ [d.summary] }
  else r

/-- Embedding of `ItemPbta._onUpdate`: find the entry with this document's
uuid and assign the fresh summary at the found index (which is -1 on a
miss). -/
def onUpdateHook (d : ItemDoc) (r : PlaybookRegistry) : PlaybookRegistry :=
  if d.type = "playbook" then
    registryAssign r (findIndex (fun p => p.uuid == d.uuid) r.entries) d.summary
  else r

/-- Embedding of `ItemPbta._onDelete`: `filter` builds a fresh array from
the index elements whose uuid differs, so any "-1" own property is dropped
too. -/
def onDeleteHook (d : ItemDoc) (r : PlaybookRegistry) : PlaybookRegistry :=
  if d.type = "playbook" then
    { entries := r.entries.filter (fun p => p.uuid != d.uuid), negIndexProp := none }
  else r

/-- The slice of an item (plus its host context) that
`ItemPbta.getRollFormula` reads: `rollType` and `rollFormula` from
`this.system` (`none` models an undefined roll type), `validateRoll` is the
host call `Roll.validate`, `actorRollFormula` is
`this.actor?.getRollFormula` (`none` when there is no actor), and
`sheetConfigRollFormula` is `game.pbta.sheetConfig.rollFormula` (`none` when
nullish). -/
structure ItemRollContext where
  rollType : Option String
  rollFormula : String
  validateRoll : String → Bool
  actorRollFormula : Option (String → String)
  sheetConfigRollFormula : Option String

/-- Embedding of `ItemPbta.getRollFormula`: a truthy (non-empty) and valid
override formula is returned trimmed when `rollType` is "formula";
otherwise the actor's formula when an actor exists, else the sheet-config
formula when set, else the default argument. -/
def getRollFormula (it : ItemRollContext) (defaultFormula : String := "2d6") : String :=
  if it.rollType = some "formula" ∧ it.rollFormula ≠ "" ∧
      it.validateRoll it.rollFormula = true then
    it.rollFormula.trim
  else
    match it.actorRollFormula with
    | some g => g defaultFormula
    | none =>
      match it.sheetConfigRollFormula with
      | some s => s
      | none => defaultFormula

/-- ASCII whitespace matched by the regex class in the source pattern
/([+-]\s*\d)/ (the Unicode extras of \s never occur in roll formulas). -/
def isWsChar (c : Char) : Bool :=
  c == ' ' || c == '\t' || c == '\n' || c == '\r'

/-- Attempt of the source regex /([+-]\s*\d)/ anchored at the head of the
text: a sign, a maximal whitespace run, then one digit.  Returns the matched
characters and the remainder.  (Backtracking cannot shorten the whitespace
run: a shorter run would require the digit class to match a whitespace
character.) -/
def matchSignDigitAt : List Char → Option (List Char × List Char)
  | [] => none
  | c :: rest =>
    if c == '+' || c == '-' then
      match rest.dropWhile isWsChar with
      | d :: after =>
        if d.isDigit then some (c :: (rest.takeWhile isWsChar ++ [d]), after)
        else none
      | [] => none
    else none

/-- First match of /([+-]\s*\d)/ in the text, as
(prefix, matched characters, suffix); `none` when the pattern never
matches. -/
def findSignDigit : List Char → Option (List Char × List Char × List Char)
  | [] => none
  | c :: rest =>
    match matchSignDigitAt (c :: rest) with
    | some (m, after) => some ([], m, after)
    | none =>
      match findSignDigit rest with
      | some (p, m, a) => some (c :: p, m, a)
      | none => none

/-- Numeric value of a matched sign-whitespace-digit fragment, as
`Roll.safeEval` reads it (the match always ends in its single digit). -/
def signDigitValue : List Char → Int
  | [] => 0
  | c :: rest =>
    match rest.getLast? with
    | some d => if c == '-' then -(Int.ofNat (d.toNat - 48)) else Int.ofNat (d.toNat - 48)
    | none => 0

/-- The replacement text the source builds:
newValue >= 0 ? `+ newValue` : `- abs(newValue)`. -/
def renderSignedValue (n : Int) : List Char :=
  if 0 ≤ n then '+' :: ' ' :: (Nat.repr n.natAbs).data
  else '-' :: ' ' :: (Nat.repr n.natAbs).data

/-- The transformation `_onChatCardAction` applies to the dice-formula text:
replace the first /([+-]\s*\d)/ match with its value plus the shift,
rendered; with no match, append the rendered shift after a space (the
template literal path where the extracted value is the empty string). -/
def shiftRollFormula (roll : List Char) (shift : Int) : List Char :=
  match findSignDigit roll with
  | some (p, m, a) => p ++ renderSignedValue (signDigitValue m + shift) ++ a
  | none => roll ++ ' ' :: renderSignedValue shift

/-- The dice-formula and dice-total blocks of a rendered chat card, the two
pieces of message content the shift action rewrites (the claim's hypothesis
is that both blocks are present, the total being numeric text). -/
structure ChatCard where
  diceFormula : List Char
  diceTotal : Int
deriving DecidableEq, Repr

/-- The shift applied by a chat-card action: +1 for "shiftUp", else -1. -/
def shiftAmount (action : String) : Int :=
  if action = "shiftUp" then 1 else -1

/-- Embedding of the formula/total rewriting in
`ItemPbta._onChatCardAction` (the result-band re-derivation further down
is out of the claim's scope). -/
def onChatCardShift (card : ChatCard) (action : String) : ChatCard :=
  { diceFormula := shiftRollFormula card.diceFormula (shiftAmount action)
    diceTotal := card.diceTotal + shiftAmount action }

/-- Decimal value of a most-significant-first digit run. -/
def digitsToNat (ds : List Char) : Nat :=
  ds.foldl (fun acc d => acc * 10 + (d.toNat - 48)) 0

/-- The trailing numeric modifier of a dice-formula text: the value of its
final signed integer term (digits at the end of the text, preceded,
whitespace apart, by a sign). -/
def trailingModifier (roll : List Char) : Option Int :=
  let rev := roll.reverse
  match rev.takeWhile Char.isDigit with
  | [] => none
  | ds =>
    match (rev.dropWhile Char.isDigit).dropWhile isWsChar with
    | [] => none
    | c :: _ =>
      if c == '+' then some (Int.ofNat (digitsToNat ds.reverse))
      else if c == '-' then some (-(Int.ofNat (digitsToNat ds.reverse)))
      else none

/-! ## Helper lemmas about the JavaScript-object model -/

theorem assocGet_assocSet {V : Type u} (l : List (String × V)) (k k' : String) (v : V) :
    assocGet (assocSet l k v) k' = if k = k' then some v else assocGet l k' := by
  induction l with
  | nil => simp only [assocSet, assocGet]
  | cons p rest ih =>
    simp only [assocSet]
    by_cases h : p.1 = k
    · rw [if_pos h]
      simp only [assocGet]
      by_cases h2 : k = k'
      · rw [if_pos h2, if_pos h2]
      · rw [if_neg h2, if_neg h2, if_neg (h ▸ h2)]
  
    · rw [if_neg h]
      simp only [assocGet, ih]
      by_cases h2 : p.1 = k'
      · have hk : ¬ k = k' := fun e => h (e ▸ h2)
        rw [if_pos h2, if_neg hk, if_pos h2]
      · rw [if_neg h2]
        by_cases h3 : k = k'
        · rw [if_pos h3, if_pos h3]
        · rw [if_neg h3, if_neg h3, if_neg h2]

theorem mem_keys_assocSet {V : Type u} (l : List (String × V)) (k k' : String) (v : V) :
    k' ∈ (assocSet l k v).map Prod.fst ↔ k' = k ∨ k' ∈ l.map Prod.fst := by
  induction l with
  | nil => simp [assocSet]
  | cons p rest ih =>
    by_cases h : p.1 = k
    · simp only [assocSet, if_pos h, List.map_cons, List.mem_cons, ih]
      constructor
      · rintro (rfl | hm)
        · exact Or.inl rfl
        · exact Or.inr (Or.inr hm)
      · rintro (rfl | (rfl | hm))
        · exact Or.inl rfl
        · exact Or.inl h
        · exact Or.inr hm
    · simp only [assocSet, if_neg h, List.map_cons, List.mem_cons, ih]
      tauto

theorem assocGet_foldSet {V : Type u} (ks : List String) (g : String → V)
    (init : List (String × V)) (k : String) :
    assocGet (ks.foldl (fun o kk => assocSet o kk (g kk)) init) k =
      if k ∈ ks then some (g k) else assocGet init k := by
  induction ks generalizing init with
  | nil => simp
  | cons kk ks ih =>
    simp only [List.foldl_cons]
    rw [ih]
    by_cases h : k ∈ ks
    · rw [if_pos h, if_pos (List.mem_cons.mpr (Or.inr h))]
    · rw [if_neg h, assocGet_assocSet]
      by_cases h2 : kk = k
      · subst h2
        rw [if_pos rfl, if_pos (List.mem_cons.mpr (Or.inl rfl))]
      · have hk : k ∉ kk :: ks := by
          simp only [List.mem_cons]
          rintro (rfl | hm)
          · exact h2 rfl
          · exact h hm
        rw [if_neg h2, if_neg hk]

theorem mem_keys_foldSet {V : Type u} (ks : List String) (g : String → V)
    (init : List (String × V)) (k : String) :
    k ∈ (ks.foldl (fun o kk => assocSet o kk (g kk)) init).map Prod.fst ↔
      k ∈ init.map Prod.fst ∨ k ∈ ks := by
  induction ks generalizing init with
  | nil => simp
  | cons kk ks ih =>
    simp only [List.foldl_cons, ih, mem_keys_assocSet, List.mem_cons]
    tauto

theorem findIndex_eq_negOne {A : Type u} (p : A → Bool) (l : List A)
    (h : ∀ x ∈ l, p x = false) :
    findIndex p l = -1 := by
  induction l with
  | nil => rfl
  | cons a rest ih =>
    simp only [findIndex]
    rw [if_neg (by simp [h a (List.mem_cons_self a rest)]),
      ih (fun x hx => h x (List.mem_cons.mpr (Or.inr hx)))]
    norm_num

/-! ## Concrete field instances used as witnesses and counterexamples -/

/-- A field over `Nat` values whose record shape is trivial, with seed keys
"a","b" and the seed-keys-only restriction set. -/
def mfSeeded : MappingField Nat :=
  { model := { clean := id, validate := fun _ => none, defaultValue := 0, liveInit := id }
    initialKeys := some ["a", "b"]
    initialValue := none
    initialKeysOnly := true
    initialOpt := [] }

/-- A field configured with a per-key initial-value builder that returns 7,
while the record shape's own default is 0. -/
def mfCustomBuilder : MappingField Nat :=
  { model := { clean := id, validate := fun _ => none, defaultValue := 0, liveInit := id }
    initialKeys := some ["a"]
    initialValue := some (fun _ _ _ => some 7)
    initialKeysOnly := false
    initialOpt := [] }

/-- A field whose record shape rejects exactly the value 1. -/
def mfValShape : MappingField Nat :=
  { model := { clean := id, validate := fun v => if v = 1 then some "bad" else none
               defaultValue := 0, liveInit := id }
    initialKeys := none
    initialValue := none
    initialKeysOnly := false
    initialOpt := [] }

/-- A field whose record shape's clean is the (non-idempotent) successor. -/
def mfSucc : MappingField Nat :=
  { model := { clean := Nat.succ, validate := fun _ => none, defaultValue := 0, liveInit := id }
    initialKeys := none
    initialValue := none
    initialKeysOnly := false
    initialOpt := [] }

/-- A field whose record shape's clean is the identity. -/
def mfId : MappingField Nat :=
  { model := { clean := id, validate := fun _ => none, defaultValue := 0, liveInit := id }
    initialKeys := none
    initialValue := none
    initialKeysOnly := false
    initialOpt := [] }

/-! ## C3, C4, C8: key-set behavior of initial value and raw expansion -/

/-- C3: for any raw object, the key set of `MappingField.initialize`
(`expandRaw`) output is exactly the seed-key set when `initialKeysOnly` is
set (extra input keys dropped, and a missing seed key is filled by expanding
the per-key initial value), and exactly the input's key set otherwise. -/
theorem expandRaw_keySet {V : Type u} (f : MappingField V) (entries : List (String × V))
    (out : List (String × V)) (k : String)
    (hout : f.expandRaw (some entries) = some out) :
    (k ∈ out.map Prod.fst ↔
      (if f.initialKeysOnly then k ∈ f.initialKeys.getD [] else k ∈ entries.map Prod.fst)) ∧
    (f.initialKeysOnly = true → k ∈ f.initialKeys.getD [] → assocGet entries k = none →
      assocGet out k =
        some (f.model.liveInit (f.getInitialValueForKey k (some entries)))) := by
  have hkeys : (match f.initialKeys with | some ks => ks | none => ([] : List String)) =
      f.initialKeys.getD [] := by
    cases f.initialKeys <;> rfl
  have hdef : out =
      (if f.initialKeysOnly then f.initialKeys.getD [] else entries.map Prod.fst).foldl
        (fun obj key => assocSet obj key (f.model.liveInit
          ((assocGet entries key).getD (f.getInitialValueForKey key (some entries))))) [] := by
    simp only [MappingField.expandRaw, hkeys, Option.some.injEq] at hout
    exact hout.symm
  subst hdef
  constructor
  · rw [mem_keys_foldSet]
    by_cases hres : f.initialKeysOnly <;> simp [hres]
  · intro hres hk hmiss
    rw [assocGet_foldSet, if_pos (by simp [hres, hk]), hmiss]
    rfl

/-- C3 witness: with the restriction set and seed keys "a","b", the input
keys "b","z" become exactly "a","b", the missing seed key "a" being filled
from the record shape. -/
theorem expandRaw_keySet_witness :
    (("z" : String) ∈ ([("a", 0), ("b", 5)] : List (String × Nat)).map Prod.fst ↔
      (if mfSeeded.initialKeysOnly then ("z" : String) ∈ mfSeeded.initialKeys.getD []
       else ("z" : String) ∈ ([("b", 5), ("z", 9)] : List (String × Nat)).map Prod.fst)) ∧
    (mfSeeded.initialKeysOnly = true → ("z" : String) ∈ mfSeeded.initialKeys.getD [] →
      assocGet [("b", 5), ("z", 9)] "z" = none →
      assocGet [("a", 0), ("b", 5)] "z" =
        some (mfSeeded.model.liveInit (mfSeeded.getInitialValueForKey "z"
          (some [("b", 5), ("z", 9)])))) :=
  expandRaw_keySet mfSeeded [("b", 5), ("z", 9)] [("a", 0), ("b", 5)] "z" (by decide)

/-- C4 counterexample: with a configured per-key initial-value builder the
seeded record does not equal the record shape's own default (7 versus 0), so
the claim's "each value equals the contained record shape's own default
initial value" fails for that configuration. -/
theorem getInitialValue_builder_cex :
    assocGet mfCustomBuilder.getInitialValue "a" = some 7 ∧
    mfCustomBuilder.model.defaultValue = 0 ∧
    assocGet mfCustomBuilder.getInitialValue "a" ≠
      some mfCustomBuilder.model.defaultValue := by
  decide

/-- C4 (amended): with seed keys `keysL` configured and the inherited
initial empty (the host default: no supplied data), `getInitialValue`
returns a mapping whose key set is exactly `keysL`, each value being the
per-key initial value — the configured builder's result when one is present
and non-null, and in particular the record shape's own default when no
builder is configured. -/
theorem getInitialValue_seeded {V : Type u} (f : MappingField V) (keysL : List String)
    (k : String) (hK : f.initialKeys = some keysL) (hinit : f.initialOpt = []) :
    (k ∈ f.getInitialValue.map Prod.fst ↔ k ∈ keysL) ∧
    (k ∈ keysL → assocGet f.getInitialValue k =
      some (f.getInitialValueForKey k none)) ∧
    (f.initialValue = none → k ∈ keysL →
      assocGet f.getInitialValue k = some f.model.defaultValue) := by
  have hdef : f.getInitialValue =
      keysL.foldl (fun acc kk => assocSet acc kk (f.getInitialValueForKey kk none)) [] := by
    simp [MappingField.getInitialValue, hK, hinit]
  rw [hdef]
  refine ⟨?_, ?_, ?_⟩
  · rw [mem_keys_foldSet]
    simp
  · intro hk
    rw [assocGet_foldSet, if_pos hk]
  · intro hfn hk
    rw [assocGet_foldSet, if_pos hk]
    simp [MappingField.getInitialValueForKey, hfn]

/-- C4 witness: the seeded field with keys "a","b" and no builder produces
exactly those keys, each carrying the record shape's default 0. -/
theorem getInitialValue_seeded_witness :
    (("a" : String) ∈ mfSeeded.getInitialValue.map Prod.fst ↔
      ("a" : String) ∈ ["a", "b"]) ∧
    (("a" : String) ∈ ["a", "b"] → assocGet mfSeeded.getInitialValue "a" =
      some (mfSeeded.getInitialValueForKey "a" none)) ∧
    (mfSeeded.initialValue = none → ("a" : String) ∈ ["a", "b"] →
      assocGet mfSeeded.getInitialValue "a" = some mfSeeded.model.defaultValue) :=
  getInitialValue_seeded mfSeeded ["a", "b"] "a" rfl rfl

/-! ## C8: short-circuit on missing raw value -/

/-- C8 counterexample: an empty object is truthy, so it does not
short-circuit — with the seed-keys-only restriction, `initialize`
(`expandRaw`) populates the seed keys rather than returning the empty
object unchanged. -/
theorem expandRaw_empty_cex :
    mfSeeded.expandRaw (some []) = some [("a", 0), ("b", 0)] ∧
    mfSeeded.expandRaw (some []) ≠ some [] := by
  decide

/-- C8 (amended): only a missing — null/undefined, i.e. falsy — raw value
short-circuits `initialize` (`expandRaw`), returning that value unchanged
with no key expansion; a present empty object is processed normally. -/
theorem expandRaw_missing_shortCircuit {V : Type u} (f : MappingField V) :
    f.expandRaw none = none :=
  rfl

/-! ## C9: constructor fail-fast -/

/-- C9: constructing a `MappingField` from a non-`DataField` model argument
raises immediately, for every option set, and no field state results. -/
theorem construct_rejects_nonDataField {V : Type u} (tag : String)
    (options : MappingFieldOptions V) :
    MappingField.construct (.nonDataField tag) options =
      .error "MappingField must have a DataField as its contained element" :=
  rfl

/-! ## C5: aggregate validation -/

/-- C5: when every entry of a plain object passes the record shape's
validation, `_validateType` raises nothing; when exactly one entry fails,
it raises a single aggregate `ModelValidationError` whose per-key error map
holds exactly that key (and, the raise being the only outcome, no entry of
the failing collection is accepted). -/
theorem validateType_aggregate {V : Type u} (f : MappingField V)
    (entries pre post : List (String × V)) (k : String) (v : V) (e : String) :
    ((∀ p ∈ entries, f.model.validate p.2 = none) →
      f.validateType (.obj entries) = .ok ()) ∧
    (entries = pre ++ (k, v) :: post →
      (∀ p ∈ pre, f.model.validate p.2 = none) →
      (∀ p ∈ post, f.model.validate p.2 = none) →
      f.model.validate v = some e →
      f.validateType (.obj entries) = .error (.modelValidation [(k, e)])) := by
  have hnil : ∀ l : List (String × V), (∀ p ∈ l, f.model.validate p.2 = none) →
      f.validateValues l = [] := by
    intro l hl
    simp only [MappingField.validateValues]
    rw [List.filterMap_eq_nil_iff]
    intro p hp
    rw [hl p hp]
    rfl
  constructor
  · intro h
    simp only [MappingField.validateType, hnil entries h]
  · intro he hpre hpost hv
    have hvals : f.validateValues entries = [(k, e)] := by
      subst he
      simp only [MappingField.validateValues] at hnil ⊢
      rw [List.filterMap_append, hnil pre hpre, List.filterMap_cons, hv,
        hnil post hpost]
      rfl
    simp only [MappingField.validateType, hvals]

/-- C5 witness: with a record shape rejecting the value 1, the object with
entries a↦0 passes, and the object a↦0, b↦1 raises the error map holding
exactly the key "b". -/
theorem validateType_aggregate_witness :
    mfValShape.validateType (.obj [("a", 0)]) = .ok () ∧
    mfValShape.validateType (.obj [("a", 0), ("b", 1)]) =
      .error (.modelValidation [("b", "bad")]) :=
  ⟨(validateType_aggregate mfValShape [("a", 0)] [] [] "x" 0 "x").1 (by decide),
    (validateType_aggregate mfValShape [("a", 0), ("b", 1)] [("a", 0)] [] "b" 1 "bad").2
      rfl (by decide) (by decide) (by decide)⟩

/-! ## C6: idempotence of clean -/

/-- C6 counterexample: a record shape whose clean is the successor makes
`_cleanType` non-idempotent on the singleton object a↦0, so clean of the
keyed collection is not idempotent for every contained record shape. -/
theorem cleanType_not_idempotent_cex :
    mfSucc.cleanType (mfSucc.cleanType [("a", 0)]) ≠ mfSucc.cleanType [("a", 0)] := by
  decide

/-- C6 (amended): `_cleanType` is idempotent exactly as inherited from the
contained record shape — whenever the record shape's own clean is
idempotent, cleaning an already-cleaned collection returns an identical
collection. -/
theorem cleanType_idempotent {V : Type u} (f : MappingField V)
    (h : ∀ v, f.model.clean (f.model.clean v) = f.model.clean v)
    (value : List (String × V)) :
    f.cleanType (f.cleanType value) = f.cleanType value := by
  simp only [MappingField.cleanType, List.map_map]
  refine List.map_congr_left (fun p _ => ?_)
  simp only [Function.comp_apply, h]

/-- C6 witness: with the identity clean, cleaning twice equals cleaning
once on a concrete collection. -/
theorem cleanType_idempotent_witness :
    mfId.cleanType (mfId.cleanType [("a", 3), ("b", 4)]) =
      mfId.cleanType [("a", 3), ("b", 4)] :=
  cleanType_idempotent mfId (fun _ => rfl) [("a", 3), ("b", 4)]

/-! ## C1, C7: playbook registry maintenance -/

/-- A playbook document and a registry state used as concrete inputs. -/
def docEx : ItemDoc :=
  { type := "playbook", name := "The Chosen", slug := "the-chosen", uuid := "Item.x1"
    actorType := "character" }

/-- A registry already holding one unrelated entry. -/
def regEx : PlaybookRegistry :=
  { entries := [{ name := "Other", slug := "other", uuid := "Item.y2"
                  actorType := "character" }]
    negIndexProp := none }

/-- C1: for a playbook document whose uuid matches no registry entry,
`_onUpdate` leaves the registry list unchanged: `findIndex` misses, and the
resulting assignment at index -1 touches no index element of the array
(it only creates the inert own property "-1"). -/
theorem onUpdateHook_noMatch_keepsEntries (d : ItemDoc) (r : PlaybookRegistry)
    (hpb : d.type = "playbook") (hno : ∀ p ∈ r.entries, p.uuid ≠ d.uuid) :
    (onUpdateHook d r).entries = r.entries := by
  have hidx : findIndex (fun p => p.uuid == d.uuid) r.entries = -1 :=
    findIndex_eq_negOne _ _ (fun p hp => by
      simpa using hno p hp)
  simp only [onUpdateHook, hpb, if_pos rfl, hidx, registryAssign]
  norm_num

/-- C1 witness: updating a playbook absent from a one-entry registry keeps
that entry list intact. -/
theorem onUpdateHook_noMatch_keepsEntries_witness :
    (onUpdateHook docEx regEx).entries = regEx.entries :=
  onUpdateHook_noMatch_keepsEntries docEx regEx rfl (by decide)

/-- C7: after `_onCreate`, `_onUpdate`, `_onDelete` of one playbook
document, the registry holds no entry with that document's uuid — and the
fresh array built by `filter` carries no "-1" own property either. -/
theorem playbook_lifecycle_no_leak (d : ItemDoc) (r : PlaybookRegistry)
    (hpb : d.type = "playbook") :
    (∀ p ∈ (onDeleteHook d (onUpdateHook d (onCreateHook d r))).entries,
      p.uuid ≠ d.uuid) ∧
    (onDeleteHook d (onUpdateHook d (onCreateHook d r))).negIndexProp = none := by
  constructor
  · intro p hp
    simp only [onDeleteHook, hpb, if_pos rfl] at hp
    have := (List.mem_filter.mp hp).2
    simpa using this
  · simp [onDeleteHook, hpb]

/-- C7 witness: the full lifecycle of the concrete playbook on the concrete
registry leaves the unrelated entry with a different uuid and no stray
property. -/
theorem playbook_lifecycle_no_leak_witness :
    ({ name := "Other", slug := "other", uuid := "Item.y2"
       actorType := "character" } : PlaybookEntry).uuid ≠ docEx.uuid ∧
    (onDeleteHook docEx (onUpdateHook docEx (onCreateHook docEx regEx))).negIndexProp =
      none :=
  ⟨(playbook_lifecycle_no_leak docEx regEx rfl).1 _ (by decide),
    (playbook_lifecycle_no_leak docEx regEx rfl).2⟩

/-! ## C2: roll-formula precedence -/

/-- C2: with rollType "formula" and a non-empty override accepted by the
host validator, `getRollFormula` returns exactly the override trimmed;
otherwise it falls through, in order, to the actor-level formula (the
stat-based formula of the owning actor) when an actor exists, else the
sheet-config default formula when set, else the hardcoded default
argument. -/
theorem getRollFormula_precedence (it : ItemRollContext) (d : String) :
    (it.rollType = some "formula" → it.rollFormula ≠ "" →
      it.validateRoll it.rollFormula = true →
      getRollFormula it d = it.rollFormula.trim) ∧
    (¬(it.rollType = some "formula" ∧ it.rollFormula ≠ "" ∧
        it.validateRoll it.rollFormula = true) →
      ((∀ g, it.actorRollFormula = some g → getRollFormula it d = g d) ∧
       (it.actorRollFormula = none →
         ∀ s, it.sheetConfigRollFormula = some s → getRollFormula it d = s) ∧
       (it.actorRollFormula = none → it.sheetConfigRollFormula = none →
         getRollFormula it d = d))) := by
  constructor
  · intro h1 h2 h3
    have hc : it.rollType = some "formula" ∧ it.rollFormula ≠ "" ∧
        it.validateRoll it.rollFormula = true := ⟨h1, h2, h3⟩
    simp only [getRollFormula, if_pos hc]
  · intro hno
    refine ⟨?_, ?_, ?_⟩
    · intro g hg
      simp only [getRollFormula, if_neg hno, hg]
    · intro ha s hs
      simp only [getRollFormula, if_neg hno, ha, hs]
    · intro ha hs
      simp only [getRollFormula, if_neg hno, ha, hs]

/-- C2 witness: a valid override " 2d8 " comes back trimmed; with no
override and no actor the sheet-config formula "2d10" is used. -/
theorem getRollFormula_precedence_witness :
    getRollFormula
      { rollType := some "formula", rollFormula := " 2d8 "
        validateRoll := fun _ => true, actorRollFormula := none
        sheetConfigRollFormula := none } "2d6" = " 2d8 ".trim ∧
    getRollFormula
      { rollType := none, rollFormula := ""
        validateRoll := fun _ => false, actorRollFormula := none
        sheetConfigRollFormula := some "2d10" } "2d6" = "2d10" :=
  ⟨(getRollFormula_precedence
      { rollType := some "formula", rollFormula := " 2d8 "
        validateRoll := fun _ => true, actorRollFormula := none
        sheetConfigRollFormula := none } "2d6").1 rfl (by decide) rfl,
    ((getRollFormula_precedence
      { rollType := none, rollFormula := ""
        validateRoll := fun _ => false, actorRollFormula := none
        sheetConfigRollFormula := some "2d10" } "2d6").2
        (by simp)).2.1 rfl "2d10" rfl⟩

/-! ## C10: chat-card shift action -/

theorem digitChar_facts (d : Nat) (hd : d ≤ 9) :
    (Nat.digitChar d).isDigit = true ∧ isWsChar (Nat.digitChar d) = false ∧
    (Nat.digitChar d).toNat - 48 = d := by
  interval_cases d <;> decide

theorem repr_digit (d : Nat) (hd : d ≤ 9) : (Nat.repr d).data = [Nat.digitChar d] := by
  interval_cases d <;> decide

theorem isDigit_not_ws (c : Char) (hc : c.isDigit = true) : isWsChar c = false := by
  cases hb : isWsChar c
  · rfl
  · exfalso
    simp only [isWsChar, Bool.or_eq_true, beq_iff_eq] at hb
    rcases hb with ((rfl | rfl) | rfl) | rfl <;> exact absurd hc (by decide)

theorem matchSignDigitAt_plus (c : Char) (rest : List Char) (hc : c.isDigit = true) :
    matchSignDigitAt ('+' :: ' ' :: c :: rest) = some (['+', ' ', c], rest) := by
  have hw : isWsChar c = false := isDigit_not_ws c hc
  have hdrop : (' ' :: c :: rest).dropWhile isWsChar = c :: rest := by
    rw [List.dropWhile_cons_of_pos (by decide), List.dropWhile_cons_of_neg (by simp [hw])]
  have htake : (' ' :: c :: rest).takeWhile isWsChar = [' '] := by
    rw [List.takeWhile_cons_of_pos (by decide), List.takeWhile_cons_of_neg (by simp [hw])]
  simp only [matchSignDigitAt, hdrop, htake, hc, if_pos]
  rfl

theorem findSignDigit_signfree_append (p s : List Char)
    (hp : ∀ c ∈ p, c ≠ '+' ∧ c ≠ '-') :
    findSignDigit (p ++ s) =
      (findSignDigit s).map (fun t => (p ++ t.1, t.2.1, t.2.2)) := by
  induction p with
  | nil =>
    cases h : findSignDigit s with
    | none => simp [h]
    | some t => simp [h]
  | cons c p ih =>
    have hc := hp c (List.mem_cons_self c p)
    have hmatch : matchSignDigitAt (c :: (p ++ s)) = none := by
      simp only [matchSignDigitAt]
      rw [if_neg]
      simp only [Bool.or_eq_true, beq_iff_eq]
      rintro (rfl | rfl)
      · exact hc.1 rfl
      · exact hc.2 rfl
    simp only [List.cons_append, findSignDigit, List.append_eq, hmatch]
    rw [ih (fun x hx => hp x (List.mem_cons.mpr (Or.inr hx)))]
    cases h : findSignDigit s with
    | none => simp
    | some t => simp

theorem signDigitValue_plus (c : Char) :
    signDigitValue ['+', ' ', c] = Int.ofNat (c.toNat - 48) := by
  simp only [signDigitValue, List.getLast?]
  rfl

theorem shiftRollFormula_singleDigit (p : List Char) (d : Nat)
    (hp : ∀ c ∈ p, c ≠ '+' ∧ c ≠ '-') (hd : d ≤ 8) :
    shiftRollFormula (p ++ ['+', ' ', Nat.digitChar d]) 1 =
      p ++ ['+', ' ', Nat.digitChar (d + 1)] := by
  obtain ⟨hdig, hws, htn⟩ := digitChar_facts d (by omega)
  have hbase : findSignDigit ['+', ' ', Nat.digitChar d] =
      some ([], ['+', ' ', Nat.digitChar d], []) := by
    simp only [findSignDigit, matchSignDigitAt_plus (Nat.digitChar d) [] hdig]
  have hfind : findSignDigit (p ++ ['+', ' ', Nat.digitChar d]) =
      some (p, ['+', ' ', Nat.digitChar d], []) := by
    rw [findSignDigit_signfree_append p _ hp, hbase]
    simp
  have hval : signDigitValue ['+', ' ', Nat.digitChar d] + 1 = Int.ofNat (d + 1) := by
    rw [signDigitValue_plus, htn]
    rfl
  have hrender : renderSignedValue (Int.ofNat (d + 1)) =
      '+' :: ' ' :: [Nat.digitChar (d + 1)] := by
    simp only [renderSignedValue, Int.ofNat_eq_coe]
    rw [if_pos (Int.ofNat_nonneg (d + 1)), Int.natAbs_ofNat, repr_digit (d + 1) (by omega)]
  simp only [shiftRollFormula, hfind, hval, hrender]
  simp

theorem trailingModifier_append_plus (p : List Char) (c : Char) (hc : c.isDigit = true) :
    trailingModifier (p ++ ['+', ' ', c]) = some (Int.ofNat (c.toNat - 48)) := by
  have hws : isWsChar c = false := isDigit_not_ws c hc
  have hrev : (p ++ ['+', ' ', c]).reverse = c :: ' ' :: '+' :: p.reverse := by
    simp
  have htake : (c :: ' ' :: '+' :: p.reverse).takeWhile Char.isDigit = [c] := by
    rw [List.takeWhile_cons_of_pos hc, List.takeWhile_cons_of_neg (by decide)]
  have hdrop : (c :: ' ' :: '+' :: p.reverse).dropWhile Char.isDigit =
      ' ' :: '+' :: p.reverse := by
    rw [List.dropWhile_cons_of_pos hc, List.dropWhile_cons_of_neg (by decide)]
  have hdrop2 : (' ' :: '+' :: p.reverse).dropWhile isWsChar = '+' :: p.reverse := by
    rw [List.dropWhile_cons_of_pos (by decide), List.dropWhile_cons_of_neg (by decide)]
  simp only [trailingModifier, hrev, htake, hdrop, hdrop2]
  simp [digitsToNat]

/-- C10 counterexample: on a card whose formula is "2d6 + 12", "shiftUp"
does raise the total from 7 to 8, but the first-sign-plus-single-digit
replacement turns the trailing modifier 12 into 22, not 13: the modifier is
not adjusted by the same amount as the total. -/
theorem onChatCardShift_multidigit_cex :
    (onChatCardShift { diceFormula := "2d6 + 12".data, diceTotal := 7 }
      "shiftUp").diceTotal = 8 ∧
    trailingModifier ("2d6 + 12".data) = some 12 ∧
    trailingModifier (onChatCardShift { diceFormula := "2d6 + 12".data, diceTotal := 7 }
      "shiftUp").diceFormula = some 22 ∧
    trailingModifier (onChatCardShift { diceFormula := "2d6 + 12".data, diceTotal := 7 }
      "shiftUp").diceFormula ≠ some (12 + 1) := by
  decide

/-- C10 (amended): the displayed total always moves by exactly +1 for
"shiftUp" and -1 for "shiftDown"; the formula rewrite adjusts the trailing
numeric modifier by that same amount only in the single-digit regime — when
the formula is sign-free except for a trailing "+ d" modifier with one
digit d ≤ 8, "shiftUp" turns it into "+ (d+1)" — while multi-digit
modifiers are corrupted (see the counterexample). -/
theorem onChatCardShift_amended (card : ChatCard) (p : List Char) (d : Nat)
    (hp : ∀ c ∈ p, c ≠ '+' ∧ c ≠ '-') (hd : d ≤ 8)
    (hf : card.diceFormula = p ++ ['+', ' ', Nat.digitChar d]) :
    (onChatCardShift card "shiftUp").diceTotal = card.diceTotal + 1 ∧
    (onChatCardShift card "shiftDown").diceTotal = card.diceTotal - 1 ∧
    (onChatCardShift card "shiftUp").diceFormula =
      p ++ ['+', ' ', Nat.digitChar (d + 1)] ∧
    trailingModifier card.diceFormula = some (Int.ofNat d) ∧
    trailingModifier (onChatCardShift card "shiftUp").diceFormula =
      some (Int.ofNat d + 1) := by
  obtain ⟨hdig, hws, htn⟩ := digitChar_facts d (by omega)
  obtain ⟨hdig1, hws1, htn1⟩ := digitChar_facts (d + 1) (by omega)
  have hup : shiftAmount "shiftUp" = 1 := by decide
  have hdown : shiftAmount "shiftDown" = -1 := by decide
  have hform : (onChatCardShift card "shiftUp").diceFormula =
      p ++ ['+', ' ', Nat.digitChar (d + 1)] := by
    simp only [onChatCardShift, hup, hf]
    exact shiftRollFormula_singleDigit p d hp hd
  refine ⟨?_, ?_, hform, ?_, ?_⟩
  · simp only [onChatCardShift, hup]
  · simp only [onChatCardShift, hdown]
    rfl
  · rw [hf, trailingModifier_append_plus p _ hdig, htn]
  · rw [hform, trailingModifier_append_plus p _ hdig1, htn1]
    rfl

/-- C10 witness: shifting the single-digit card "2d6 + 3" (total 10) up
yields "2d6 + 4" with total 11. -/
theorem onChatCardShift_amended_witness :
    (onChatCardShift { diceFormula := "2d6 + 3".data, diceTotal := 10 }
      "shiftUp").diceTotal = 10 + 1 ∧
    (onChatCardShift { diceFormula := "2d6 + 3".data, diceTotal := 10 }
      "shiftDown").diceTotal = 10 - 1 ∧
    (onChatCardShift { diceFormula := "2d6 + 3".data, diceTotal := 10 }
      "shiftUp").diceFormula = "2d6 ".data ++ ['+', ' ', Nat.digitChar (3 + 1)] ∧
    trailingModifier ("2d6 + 3".data) = some (Int.ofNat 3) ∧
    trailingModifier (onChatCardShift { diceFormula := "2d6 + 3".data, diceTotal := 10 }
      "shiftUp").diceFormula = some (Int.ofNat 3 + 1) :=
  onChatCardShift_amended { diceFormula := "2d6 + 3".data, diceTotal := 10 }
    "2d6 ".data 3 (by decide) (by decide) (by decide)
